import Mathlib

/-!
Verification of the concurrent-fetch / ordered-assembly core of the
book-page downloader (`src/download_optimised.py`, with the auxiliary
variants in `src/download.py`, `src/download_concurrent.py` and
`src/download_concurrent_disk_merge.py`).

The embedding models the reassembly loop of `download_and_build_pdf` as a
state machine over the keys of the out-of-order buffer dict `ready`
(payloads are keyed by unit id and `_fetch` returns the pair
`(page, content)` for the requested page, so the key sequence determines
the page sequence of the artifact), the worker-count computation as an
integer function using Python floor division, the reader-URL parser as a
function on the extracted query parameters, and the per-fetch retry
policy as a bounded state machine parameterized by the configuration
installed in `_session`.
-/

namespace BookExtract

/-- State of the ordered-reassembly loop in `download_and_build_pdf`
(src/download_optimised.py lines 99-130): `ready` holds the keys of the
out-of-order buffer dict, `next_write` is the write cursor, `writes`
lists the unit ids handed to `_add` so far, in call order. -/
structure AsmState where
  ready : List Nat
  next_write : Nat
  writes : List Nat
deriving Repr, DecidableEq

/-- The inner `while next_write in ready:` loop (lines 124-126), with
explicit structural fuel; one unit of fuel per buffered entry suffices,
since every iteration pops one entry from the buffer. -/
def drainFuel : Nat → AsmState → AsmState
  | 0, s => s
  | fuel + 1, s =>
    if s.next_write ∈ s.ready then
      drainFuel fuel
        { ready := s.ready.erase s.next_write
          next_write := s.next_write + 1
          writes := s.writes ++ [s.next_write] }
    else s

/-- Run the drain loop to completion (`ready.length` fuel is enough). -/
def drain (s : AsmState) : AsmState := drainFuel s.ready.length s

/-- One iteration of `for fut in cf.as_completed(fut_to_pg):`
(lines 120-126): the completed page `pg` is inserted into the buffer
(`ready[pg] = data`) and then the contiguous prefix is drained. -/
def stepArrival (s : AsmState) (pg : Nat) : AsmState :=
  drain { s with ready := pg :: s.ready }

/-- The state the loop starts from (lines 99-100): the probe payload for
unit 1 is pre-inserted (`ready = {probe_page: probe_bytes}`) and
`next_write = 1`. -/
def initState : AsmState := ⟨[1], 1, []⟩

/-- Process the completion events in their arrival order. -/
def runArrivals (arrival : List Nat) (s : AsmState) : AsmState :=
  arrival.foldl stepArrival s

/-- Every loop-boundary state of the reassembly loop, initial state
first; entry `i+1` is the state after the `i`-th completion has been
inserted and drained. -/
def runTrace : List Nat → AsmState → List AsmState
  | [], s => [s]
  | pg :: rest, s => s :: runTrace rest (stepArrival s pg)

/-- The sequence of unit ids handed to the sink by a successful run of
`download_and_build_pdf`: the in-loop writes followed by the straggler
loop `for pg in sorted(ready): _add(ready[pg])` (lines 129-130). -/
def assembleWrites (arrival : List Nat) : List Nat :=
  let s := runArrivals arrival initState
  s.writes ++ s.ready.mergeSort (fun a b => a ≤ b)

/-- Loop invariant of the reassembly state. `A` is the set of unit ids
inserted into the buffer so far (probe unit plus processed arrivals). -/
def Inv (A : Finset Nat) (s : AsmState) : Prop :=
  1 ≤ s.next_write ∧
  s.writes = List.range' 1 (s.next_write - 1) ∧
  s.ready.Nodup ∧
  (∀ x ∈ s.writes, x ∉ s.ready) ∧
  (∀ x, (x ∈ s.ready ∨ x ∈ s.writes) ↔ x ∈ A) ∧
  (∀ x ∈ s.ready, s.next_write ≤ x)

/-- Python `rel.lstrip("/")` from `_parse` (src/download_optimised.py
line 54), modelled on the character list of the string. -/
def lstripSlashes (s : String) : String :=
  ⟨s.data.dropWhile (fun c => c = '/')⟩

/-- Python `.lower()` applied to the extension token (line 53),
modelled character-wise. -/
def strToLower (s : String) : String :=
  ⟨s.data.map Char.toLower⟩

/-- Python `rel.endswith("/")` (line 57): the single-character suffix
test is equivalent to looking at the last character. -/
def endsWithSlash (s : String) : Bool :=
  s.data.getLast? == some '/'

/-- The query parameters `_parse` extracts from the reader URL
(src/download_optimised.py lines 50-54): `totalPage` is
`int(q.get("TotalPage", [0])[0])` (so 0 when the parameter is absent),
`urlParam` is `unquote(q.get("Url", [""])[0])` (so "" when absent), and
`ext` is `q.get("ext", ["jpg"])[0]`. -/
structure ReaderQuery where
  totalPage : Int
  urlParam : String
  ext : String
deriving Repr, DecidableEq

/-- The resolver `_parse` (src/download_optimised.py lines 50-59): strips leading
slashes from the Url parameter, raises ValueError when the stripped
path is empty or `pages == 0`, otherwise lowercases the extension and
ensures a trailing slash.  The `_make_base` URL join is not modelled
(no claim depends on it); the returned triple is
`(pages, ext, rel-with-trailing-slash)`. -/
def _parse (q : ReaderQuery) : Except String (Int × String × String) :=
  let pages := q.totalPage
  let ext := strToLower q.ext
  let rel := lstripSlashes q.urlParam
  if rel = "" ∨ pages = 0 then .error "Reader URL missing Url or TotalPage"
  else .ok (pages, ext, if endsWithSlash rel then rel else rel ++ "/")

/-- The worker-count computation of `download_and_build_pdf`
(src/download_optimised.py lines 89-94):
`min(max_threads, max(2, (budget - fudge) // (img_size * 2)))` with
`fudge = 32 MiB` and `budget = mem_budget_mb * 1024 * 1024`.  Python
`//` on ints is floor division, i.e. `Int.fdiv`. -/
def governorThreads (mem_budget_mb max_threads img_size : Int) : Int :=
  let fudge : Int := 32 * 1024 * 1024
  let budget : Int := mem_budget_mb * 1024 * 1024
  min max_threads (max 2 ((budget - fudge).fdiv (img_size * 2)))

/-- The errors `download_and_build_pdf` can surface: the ValueError from
`_parse` (malformed descriptor) or the RuntimeError from `_fetch`
carrying the failing page number. -/
inductive JobError
  | malformed
  | fetchFailed (unit : Nat)
deriving Repr, DecidableEq

/-- Observable outcome of one run of `download_and_build_pdf`:
which units were fetched (probe first), whether `pdf.output` ran
(finalization), the page-id sequence of the returned artifact if any,
and the error surfaced if any. -/
structure JobOutcome where
  fetched : List Nat
  finalized : Bool
  artifact : Option (List Nat)
  error : Option JobError
deriving Repr, DecidableEq

/-- The `for fut in cf.as_completed(...)` loop with outcomes: each
arrival is a pair of page id and success flag; `fut.result()` re-raises
the fetch error of the first failed future, aborting the loop. -/
def runArrivalsE : List (Nat × Bool) → AsmState → Except Nat AsmState
  | [], s => .ok s
  | (pg, good) :: rest, s =>
    if good then runArrivalsE rest (stepArrival s pg) else .error pg

/-- The pages submitted to the thread pool: `range(2, total + 1)`
(src/download_optimised.py line 116), empty when `total ≤ 1` (Python
ranges with an upper bound below the start are empty). -/
def poolPages (total : Int) : List Nat :=
  List.range' 2 (total - 1).toNat

/-- One run of `download_and_build_pdf` (src/download_optimised.py
lines 76-136): parse, probe-fetch unit 1 (its payload pre-inserted into
`ready`), submit pages 2..total to the pool, process completions in
arrival order, and finalize only when no fetch failed.  `arrival` is
the completion order of the pool futures with their success flags; on a
fetch failure the submitted futures still run to completion (the
executor's context-manager exit waits for them), hence `fetched` also
lists them, but nothing is finalized or returned. -/
def download_and_build_pdf_run (q : ReaderQuery) (probeOk : Bool)
    (arrival : List (Nat × Bool)) : JobOutcome :=
  match _parse q with
  | .error _ => ⟨[], false, none, some .malformed⟩
  | .ok _ =>
    if probeOk then
      match runArrivalsE arrival initState with
      | .error pg => ⟨1 :: arrival.map Prod.fst, false, none, some (.fetchFailed pg)⟩
      | .ok s =>
        ⟨1 :: arrival.map Prod.fst, true,
          some (s.writes ++ s.ready.mergeSort (fun a b => a ≤ b)), none⟩
    else ⟨[1], false, none, some (.fetchFailed 1)⟩

/-- The `status_forcelist` configured in `_session`
(src/download_optimised.py line 29). -/
def statusForcelist : List Nat := [429, 500, 502, 503, 504]

/-- Result of one `_fetch`: a success payload, an immediate RuntimeError
on a non-retried non-success status (`_fetch` line 68-69), or retry
exhaustion inside the adapter. -/
inductive FetchOutcome
  | success (status : Nat)
  | httpError (status : Nat)
  | exhausted (status : Nat)
deriving Repr, DecidableEq

/-- Trace of one `_fetch` call: its outcome, how many HTTP requests were
issued, and the backoff sleeps between attempts. -/
structure FetchRun where
  outcome : FetchOutcome
  requests : Nat
  backoffs : List Nat
deriving Repr, DecidableEq

/-- Modelled from the spec: the exponential backoff schedule of the
retry adapter, `backoff_factor * 2 ^ (retry index)` with
`backoff_factor = 1` as configured in `_session` (line 28). -/
def retryBackoff (k : Nat) : Nat := 1 * 2 ^ k

/-- Modelled from the spec: the bounded-retry loop that the `Retry`
configuration in `_session` (src/download_optimised.py lines 26-34)
installs in the HTTP adapter; the loop itself lives in the HTTP
library, not in src/.  `resp` gives the status of the `i`-th request;
a status `< 400` is a success (`r.ok`), a status in the configured
forcelist is retried while retries remain (decrementing the budget,
sleeping `retryBackoff`), any other status is returned to `_fetch`,
which raises immediately. -/
def retryRunAux (resp : Nat → Nat) : Nat → Nat → FetchRun
  | i, 0 =>
    if resp i < 400 then ⟨.success (resp i), 1, []⟩
    else if resp i ∈ statusForcelist then ⟨.exhausted (resp i), 1, []⟩
    else ⟨.httpError (resp i), 1, []⟩
  | i, r + 1 =>
    if resp i < 400 then ⟨.success (resp i), 1, []⟩
    else if resp i ∈ statusForcelist then
      ⟨(retryRunAux resp (i + 1) r).outcome,
        (retryRunAux resp (i + 1) r).requests + 1,
        retryBackoff i :: (retryRunAux resp (i + 1) r).backoffs⟩
    else ⟨.httpError (resp i), 1, []⟩

/-- One `_fetch` with the configured retry budget `total=3`
(src/download_optimised.py line 27): an initial request plus at most 3
retries. -/
def fetchWithRetry (resp : Nat → Nat) : FetchRun :=
  retryRunAux resp 0 3

/-- Modelled from the spec: the transient-failure class as the spec
words it, "rate-limiting and server-side 5xx-class statuses"; kept
separate from `statusForcelist` so the two can be compared. -/
def specTransient (s : Nat) : Prop := s = 429 ∨ (500 ≤ s ∧ s ≤ 599)

/-- What happens to one page in the `download_reader_images` loop
(src/download.py lines 58-75). -/
inductive PageAction
  | skipped
  | downloaded
  | failed
deriving Repr, DecidableEq

/-- The per-page branch of `download_reader_images`: skip when the
output file already exists (no fetch), download when the response is
ok, otherwise print a failure message and move on. `pre` is the
pre-existence of each page's output file (file names are distinct per
page, so writes never affect other iterations) and `good` is the HTTP
success of each page's fetch. -/
def readerPageAction (pre good : Nat → Bool) (p : Nat) : PageAction :=
  if pre p then .skipped else if good p then .downloaded else .failed

/-- The whole `for page in range(1, total_pages + 1)` loop of
`download_reader_images`: every page gets exactly one action, failures
never raise and never stop the loop (the function is total). -/
def download_reader_images_run (total : Nat) (pre good : Nat → Bool) :
    List (Nat × PageAction) :=
  (List.range' 1 total).map (fun p => (p, readerPageAction pre good p))

/-- Whether the page's output file exists after the loop. -/
def actionLeavesFile : PageAction → Bool
  | .skipped => true
  | .downloaded => true
  | .failed => false

/-- The pages for which `download_reader_images` issues a fetch:
exactly those whose output file did not already exist. -/
def readerFetched (total : Nat) (pre : Nat → Bool) : List Nat :=
  (List.range' 1 total).filter (fun p => !pre p)

theorem drainFuel_inv (A : Finset Nat) :
    ∀ (fuel : Nat) (s : AsmState), Inv A s → Inv A (drainFuel fuel s) := by
  intro fuel
  induction fuel with
  | zero => intro s h; exact h
  | succ n ih =>
    intro s h
    obtain ⟨h1, h2, h3, h4, h5, h6⟩ := h
    rw [drainFuel]
    by_cases hmem : s.next_write ∈ s.ready
    · simp only [hmem, if_pos]
      apply ih
      refine ⟨by show 1 ≤ s.next_write + 1; omega, ?_, h3.erase _, ?_, ?_, ?_⟩
      · show s.writes ++ [s.next_write] = List.range' 1 (s.next_write + 1 - 1)
        rw [h2]
        have hs : s.next_write + 1 - 1 = (s.next_write - 1) + 1 := by omega
        have he : 1 + 1 * (s.next_write - 1) = s.next_write := by omega
        rw [hs, List.range'_concat, he]
      · intro x hx
        simp only [List.mem_append, List.mem_singleton] at hx
        rcases hx with hx | hx
        · intro hc
          exact h4 x hx (List.mem_of_mem_erase hc)
        · subst hx
          exact h3.not_mem_erase
      · intro x
        rw [h3.mem_erase_iff]
        constructor
        · rintro (⟨hne, hx⟩ | hx)
          · exact (h5 x).mp (Or.inl hx)
          · simp only [List.mem_append, List.mem_singleton] at hx
            rcases hx with hx | hx
            · exact (h5 x).mp (Or.inr hx)
            · subst hx; exact (h5 _).mp (Or.inl hmem)
        · intro hA
          rcases (h5 x).mpr hA with hx | hx
          · by_cases hxe : x = s.next_write
            · subst hxe; right; simp
            · left; exact ⟨hxe, hx⟩
          · right; simp [hx]
      · intro x hx
        show s.next_write + 1 ≤ x
        rw [h3.mem_erase_iff] at hx
        have := h6 x hx.2
        have := hx.1
        omega
    · simp only [hmem, if_neg, not_false_iff]
      exact ⟨h1, h2, h3, h4, h5, h6⟩

theorem insert_inv (A : Finset Nat) (s : AsmState) (pg : Nat)
    (h : Inv A s) (hfresh : pg ∉ A) (hpg : 1 ≤ pg) :
    Inv (insert pg A) { s with ready := pg :: s.ready } := by
  obtain ⟨h1, h2, h3, h4, h5, h6⟩ := h
  have hnr : pg ∉ s.ready := fun hc => hfresh ((h5 pg).mp (Or.inl hc))
  have hnw : pg ∉ s.writes := fun hc => hfresh ((h5 pg).mp (Or.inr hc))
  refine ⟨h1, h2, ?_, ?_, ?_, ?_⟩
  · exact List.nodup_cons.mpr ⟨hnr, h3⟩
  · intro x hx
    simp only [List.mem_cons, not_or]
    exact ⟨fun he => hnw (he ▸ hx), h4 x hx⟩
  · intro x
    simp only [List.mem_cons, Finset.mem_insert]
    constructor
    · rintro ((he | hx) | hx)
      · exact Or.inl he
      · exact Or.inr ((h5 x).mp (Or.inl hx))
      · exact Or.inr ((h5 x).mp (Or.inr hx))
    · rintro (he | hA)
      · exact Or.inl (Or.inl he)
      · rcases (h5 x).mpr hA with hx | hx
        · exact Or.inl (Or.inr hx)
        · exact Or.inr hx
  · intro x hx
    show s.next_write ≤ x
    rcases List.mem_cons.mp hx with he | hx
    · subst he
      by_contra hc
      push_neg at hc
      have : x ∈ s.writes := by
        rw [h2, List.mem_range'_1]
        omega
      exact hnw this
    · exact h6 x hx

theorem stepArrival_inv (A : Finset Nat) (s : AsmState) (pg : Nat)
    (h : Inv A s) (hfresh : pg ∉ A) (hpg : 1 ≤ pg) :
    Inv (insert pg A) (stepArrival s pg) :=
  drainFuel_inv _ _ _ (insert_inv A s pg h hfresh hpg)

theorem runArrivals_inv :
    ∀ (arrival : List Nat) (A : Finset Nat) (s : AsmState), Inv A s →
      arrival.Nodup → (∀ pg ∈ arrival, pg ∉ A ∧ 1 ≤ pg) →
      Inv (A ∪ arrival.toFinset) (runArrivals arrival s) := by
  intro arrival
  induction arrival with
  | nil => intro A s h _ _; simpa [runArrivals] using h
  | cons pg rest ih =>
    intro A s h hnd hfresh
    have h1 := stepArrival_inv A s pg h (hfresh pg (by simp)).1 (hfresh pg (by simp)).2
    have h2 := ih (insert pg A) (stepArrival s pg) h1
      (List.nodup_cons.mp hnd).2
      (by
        intro x hx
        refine ⟨?_, (hfresh x (by simp [hx])).2⟩
        simp only [Finset.mem_insert, not_or]
        exact ⟨fun he => (List.nodup_cons.mp hnd).1 (he ▸ hx),
               (hfresh x (by simp [hx])).1⟩)
    have : insert pg A ∪ rest.toFinset = A ∪ (pg :: rest).toFinset := by
      rw [List.toFinset_cons, Finset.insert_union, Finset.union_insert]
    rw [← this]
    simpa [runArrivals] using h2

theorem initState_inv : Inv {1} initState := by
  refine ⟨le_refl 1, rfl, List.nodup_singleton 1, ?_, ?_, ?_⟩
  · intro x hx; simp [initState] at hx
  · intro x; simp [initState]
  · intro x hx
    show 1 ≤ x
    simp [initState] at hx
    omega

/-- From the invariant with the full id set, the in-loop writes followed
by the sorted stragglers are exactly `[1, ..., N]`. -/
theorem final_writes (N : Nat) (s : AsmState) (h : Inv (Finset.Icc 1 N) s) :
    s.writes ++ s.ready.mergeSort (fun a b => a ≤ b) = List.range' 1 N := by
  obtain ⟨h1, h2, h3, h4, h5, h6⟩ := h
  set k := s.next_write - 1 with hk
  have hkN : k ≤ N := by
    by_contra hc
    push_neg at hc
    have : N + 1 ∈ s.writes := by
      rw [h2, List.mem_range'_1]; omega
    have := (h5 (N + 1)).mp (Or.inr this)
    simp [Finset.mem_Icc] at this
  have hready : ∀ x, x ∈ s.ready ↔ (k + 1 ≤ x ∧ x ≤ N) := by
    intro x
    constructor
    · intro hx
      have hA := (h5 x).mp (Or.inl hx)
      simp only [Finset.mem_Icc] at hA
      have := h6 x hx
      omega
    · intro ⟨hl, hr⟩
      have hA : x ∈ Finset.Icc 1 N := by simp [Finset.mem_Icc]; omega
      rcases (h5 x).mpr hA with hx | hx
      · exact hx
      · rw [h2, List.mem_range'_1] at hx
        omega
  have hperm : s.ready.Perm (List.range' (k + 1) (N - k)) := by
    rw [List.perm_ext_iff_of_nodup h3 (List.nodup_range' _ _)]
    intro x
    rw [hready, List.mem_range'_1]
    omega
  have hsorted : (s.ready.mergeSort (fun a b => a ≤ b)).Sorted (· ≤ ·) := by
    have hp := @List.sorted_mergeSort Nat (fun a b => decide (a ≤ b))
      (fun a b c hab hbc => by simp_all; omega)
      (fun a b => by simp [Nat.le_total]) s.ready
    exact hp.imp (by simp)
  have hperm2 : (s.ready.mergeSort (fun a b => a ≤ b)).Perm (List.range' (k + 1) (N - k)) :=
    (List.mergeSort_perm s.ready _).trans hperm
  have hrsorted : (List.range' (k + 1) (N - k)).Sorted (· ≤ ·) :=
    List.pairwise_le_range' (k + 1) (N - k)
  have heq : s.ready.mergeSort (fun a b => a ≤ b) = List.range' (k + 1) (N - k) :=
    List.eq_of_perm_of_sorted hperm2 hsorted hrsorted
  rw [h2, heq]
  have h7 : k + 1 = 1 + k := by omega
  rw [h7, List.range'_append_1]
  congr 1
  omega


theorem assembleWrites_eq (N : Nat) (hN : 1 ≤ N) (arrival : List Nat)
    (hperm : arrival.Perm (List.range' 2 (N - 1))) :
    assembleWrites arrival = List.range' 1 N := by
  have hnd : arrival.Nodup := (List.nodup_range' 2 (N - 1)).perm hperm.symm
  have hmem : ∀ pg ∈ arrival, 2 ≤ pg ∧ pg < 2 + (N - 1) := by
    intro pg h
    exact List.mem_range'_1.mp (hperm.subset h)
  have hinv := runArrivals_inv arrival {1} initState initState_inv hnd
    (by
      intro pg hp
      have := hmem pg hp
      constructor
      · simp only [Finset.mem_singleton]
        omega
      · omega)
  have hA : ({1} : Finset Nat) ∪ arrival.toFinset = Finset.Icc 1 N := by
    have ht : arrival.toFinset = (List.range' 2 (N - 1)).toFinset := by
      ext x
      simp only [List.mem_toFinset]
      exact hperm.mem_iff
    rw [ht]
    ext x
    simp only [Finset.mem_union, Finset.mem_singleton, List.mem_toFinset,
      List.mem_range'_1, Finset.mem_Icc]
    omega
  rw [hA] at hinv
  exact final_writes N _ hinv

theorem runTrace_inv (N : Nat) :
    ∀ (arrival : List Nat) (A : Finset Nat) (s : AsmState), Inv A s →
      A ⊆ Finset.Icc 1 N → arrival.Nodup →
      (∀ pg ∈ arrival, pg ∉ A ∧ 2 ≤ pg ∧ pg ≤ N) →
      ∀ t ∈ runTrace arrival s, ∃ B, Inv B t ∧ B ⊆ Finset.Icc 1 N := by
  intro arrival
  induction arrival with
  | nil =>
    intro A s h hsub _ _ t ht
    simp only [runTrace, List.mem_singleton] at ht
    exact ⟨A, ht ▸ h, hsub⟩
  | cons pg rest ih =>
    intro A s h hsub hnd hfr t ht
    simp only [runTrace, List.mem_cons] at ht
    rcases ht with he | ht
    · exact ⟨A, he ▸ h, hsub⟩
    · have h1 := stepArrival_inv A s pg h (hfr pg (by simp)).1
        (by have := (hfr pg (by simp)).2.1; omega)
      refine ih (insert pg A) (stepArrival s pg) h1 ?_
        (List.nodup_cons.mp hnd).2 ?_ t ht
      · intro x hx
        simp only [Finset.mem_insert] at hx
        rcases hx with he | hx
        · subst he
          simp only [Finset.mem_Icc]
          have := (hfr x (by simp)).2
          omega
        · exact hsub hx
      · intro x hx
        refine ⟨?_, (hfr x (by simp [hx])).2⟩
        simp only [Finset.mem_insert, not_or]
        exact ⟨fun he => (List.nodup_cons.mp hnd).1 (he ▸ hx),
          (hfr x (by simp [hx])).1⟩

theorem trace_state_bounds (N : Nat) (hN : 1 ≤ N) (arrival : List Nat)
    (hperm : arrival.Perm (List.range' 2 (N - 1)))
    (t : AsmState) (ht : t ∈ runTrace arrival initState) :
    (∀ x ∈ t.ready, t.next_write ≤ x ∧ x ≤ N) ∧
      t.ready.length ≤ N + 1 - t.next_write := by
  have hnd : arrival.Nodup := (List.nodup_range' 2 (N - 1)).perm hperm.symm
  have hmem : ∀ pg ∈ arrival, 2 ≤ pg ∧ pg < 2 + (N - 1) := by
    intro pg h
    exact List.mem_range'_1.mp (hperm.subset h)
  obtain ⟨B, hB, hBsub⟩ := runTrace_inv N arrival {1} initState initState_inv
    (by
      intro x hx
      simp only [Finset.mem_singleton] at hx
      simp only [Finset.mem_Icc]
      omega)
    hnd
    (by
      intro pg hp
      have := hmem pg hp
      refine ⟨?_, by omega, by omega⟩
      simp only [Finset.mem_singleton]
      omega)
    t ht
  obtain ⟨h1, h2, h3, h4, h5, h6⟩ := hB
  have hx : ∀ x ∈ t.ready, t.next_write ≤ x ∧ x ≤ N := by
    intro x hxr
    refine ⟨h6 x hxr, ?_⟩
    have := hBsub ((h5 x).mp (Or.inl hxr))
    simp only [Finset.mem_Icc] at this
    omega
  refine ⟨hx, ?_⟩
  have hcard : t.ready.toFinset.card = t.ready.length :=
    List.toFinset_card_of_nodup h3
  have hsub2 : t.ready.toFinset ⊆ Finset.Icc t.next_write N := by
    intro x hxx
    simp only [List.mem_toFinset] at hxx
    simp only [Finset.mem_Icc]
    exact hx x hxx
  have := Finset.card_le_card hsub2
  rw [hcard, Nat.card_Icc] at this
  omega

/-- C1: for every descriptor with total unit count N ≥ 1 and every
permutation of fetch completion order, the artifact assembled by
`download_and_build_pdf` contains exactly N pages and its page sequence
is the ascending unit ids 1..N, independent of the order in which fetch
results arrive at the reassembly loop. -/
theorem c1_order_invariant (N : Nat) (hN : 1 ≤ N) (arrival : List Nat)
    (hperm : arrival.Perm (List.range' 2 (N - 1))) :
    assembleWrites arrival = List.range' 1 N ∧
      (assembleWrites arrival).length = N := by
  have h := assembleWrites_eq N hN arrival hperm
  exact ⟨h, by rw [h, List.length_range']⟩

/-- Witness for C1 at N = 3 with adversarial arrival order 3, 2. -/
theorem c1_order_invariant_witness :
    1 ≤ 3 ∧ [3, 2].Perm (List.range' 2 2) ∧
      (assembleWrites [3, 2] = List.range' 1 3 ∧
        (assembleWrites [3, 2]).length = 3) :=
  ⟨by decide, by decide, c1_order_invariant 3 (by decide) [3, 2] (by decide)⟩

/-- C2 counterexample: the claim asserts a fixed lookahead bound L caps
the buffer for every N and arrival order.  Taking L = 1, N = 4 and the
arrival order 4, 3, 2 (a permutation of 2..4), the ready buffer holds 2
entries at a loop boundary: the code dispatches all fetches upfront and
enforces no lookahead bound, so no fixed L caps the buffer. -/
theorem c2_counterexample :
    [4, 3, 2].Perm (List.range' 2 3) ∧
      ¬ (∀ t ∈ runTrace [4, 3, 2] initState, t.ready.length ≤ 1) := by
  constructor
  · decide
  · decide

/-- C2 amended: at every loop boundary, every key of the ready buffer is
at least `next_write` and at most N, and the buffer size is bounded by
`N + 1 - next_write` (hence by N); the code has no fixed lookahead bound
L and never pauses dispatch, so only this N-dependent bound holds. -/
theorem c2_buffer_bounds_amended (N : Nat) (hN : 1 ≤ N) (arrival : List Nat)
    (hperm : arrival.Perm (List.range' 2 (N - 1)))
    (t : AsmState) (ht : t ∈ runTrace arrival initState) :
    (∀ x ∈ t.ready, t.next_write ≤ x ∧ x ≤ N) ∧
      t.ready.length ≤ N + 1 - t.next_write :=
  trace_state_bounds N hN arrival hperm t ht

/-- Witness for the amended C2 at N = 3, arrival order 3, 2, at the
state reached after the first completion. -/
theorem c2_buffer_bounds_amended_witness :
    1 ≤ 3 ∧ [3, 2].Perm (List.range' 2 2) ∧
      stepArrival initState 3 ∈ runTrace [3, 2] initState ∧
      ((∀ x ∈ (stepArrival initState 3).ready,
          (stepArrival initState 3).next_write ≤ x ∧ x ≤ 3) ∧
        (stepArrival initState 3).ready.length ≤
          3 + 1 - (stepArrival initState 3).next_write) :=
  ⟨by decide, by decide, by decide,
    c2_buffer_bounds_amended 3 (by decide) [3, 2] (by decide)
      (stepArrival initState 3) (by decide)⟩

/-- C3: when the job completes successfully, the multiset of unit ids
handed to the sink is exactly the set 1..N, each id written exactly
once: no duplicates, no gaps. -/
theorem c3_no_dup_no_gap (N : Nat) (hN : 1 ≤ N) (arrival : List Nat)
    (hperm : arrival.Perm (List.range' 2 (N - 1))) (i : Nat) :
    (assembleWrites arrival).count i = if 1 ≤ i ∧ i ≤ N then 1 else 0 := by
  rw [assembleWrites_eq N hN arrival hperm]
  by_cases h : 1 ≤ i ∧ i ≤ N
  · rw [if_pos h]
    exact List.count_eq_one_of_mem (List.nodup_range' 1 N)
      (by rw [List.mem_range'_1]; omega)
  · rw [if_neg h]
    exact List.count_eq_zero_of_not_mem (by rw [List.mem_range'_1]; omega)

/-- Witness for C3 at N = 3, arrival order 3, 2, id 2. -/
theorem c3_no_dup_no_gap_witness :
    1 ≤ 3 ∧ [3, 2].Perm (List.range' 2 2) ∧
      (assembleWrites [3, 2]).count 2 = if 1 ≤ 2 ∧ 2 ≤ 3 then 1 else 0 :=
  ⟨by decide, by decide, c3_no_dup_no_gap 3 (by decide) [3, 2] (by decide) 2⟩

theorem fdiv_mono_num {a b d : Int} (hd : 0 < d) (h : a ≤ b) :
    a.fdiv d ≤ b.fdiv d := by
  rw [Int.fdiv_eq_ediv _ (le_of_lt hd), Int.fdiv_eq_ediv _ (le_of_lt hd)]
  exact Int.ediv_le_ediv hd h

/-- C5: holding the probed per-unit size fixed, the computed worker
count is monotonically non-decreasing in the memory budget, and it
never exceeds the configured hard upper bound `max_threads`. -/
theorem c5_governor_monotone (s M b1 b2 : Int) (hs : 0 < s) (hb : b1 ≤ b2) :
    governorThreads b1 M s ≤ governorThreads b2 M s ∧
      governorThreads b1 M s ≤ M := by
  constructor
  · unfold governorThreads
    apply min_le_min (le_refl M)
    apply max_le_max (le_refl 2)
    apply fdiv_mono_num (by positivity)
    have h1 : b1 * (1024 * 1024) ≤ b2 * (1024 * 1024) :=
      mul_le_mul_of_nonneg_right hb (by norm_num)
    omega
  · exact min_le_left _ _

/-- Witness for C5 with probe size 100 bytes and budgets 1 and 2 MB. -/
theorem c5_governor_monotone_witness :
    0 < (100 : Int) ∧ (1 : Int) ≤ 2 ∧
      (governorThreads 1 64 100 ≤ governorThreads 2 64 100 ∧
        governorThreads 1 64 100 ≤ 64) :=
  ⟨by decide, by decide, c5_governor_monotone 100 64 1 2 (by decide) (by decide)⟩

/-- C6 counterexample: the claim says the computed worker count is at
least 2 for every hard upper bound, but with `max_threads = 1` the
`min` clamps the count to 1. -/
theorem c6_counterexample :
    0 < (100 : Int) ∧ governorThreads 512 1 100 = 1 ∧
      ¬ 2 ≤ governorThreads 512 1 100 := by
  refine ⟨by decide, by decide, by decide⟩

/-- C6 amended: for every memory budget and every positive probe size,
the computed worker count is at least 2 provided the configured hard
upper bound is itself at least 2 (its default is 64). -/
theorem c6_workers_at_least_two_amended (b M s : Int) (hM : 2 ≤ M)
    (hs : 0 < s) : 2 ≤ governorThreads b M s :=
  le_min hM (le_max_left _ _)

/-- Witness for the amended C6 at the default bound 64. -/
theorem c6_workers_at_least_two_amended_witness :
    2 ≤ (64 : Int) ∧ 0 < (100 : Int) ∧ 2 ≤ governorThreads 512 64 100 :=
  ⟨by decide, by decide, c6_workers_at_least_two_amended 512 64 100 (by decide) (by decide)⟩

/-- C7 counterexample: a descriptor with negative total count
(`TotalPage = -1`) and a present Url parameter is accepted by the unit
resolver (`_parse` tests `pages == 0`, not `pages <= 0`), no
malformed-descriptor error is raised, and fetch work starts: the job
probe-fetches unit 1. -/
theorem c7_counterexample :
    (-1 : Int) ≤ 0 ∧
      _parse ⟨-1, "books", "jpg"⟩ = .ok (-1, "jpg", "books/") ∧
      (download_and_build_pdf_run ⟨-1, "books", "jpg"⟩ true []).fetched = [1] :=
  ⟨by decide, rfl, rfl⟩

/-- C7 amended: when the total count is exactly 0 or the stripped base
location is empty, the job fails with the malformed-descriptor error
immediately: nothing is fetched, nothing finalized, nothing returned.
Negative totals, however, pass the check. -/
theorem c7_malformed_amended (q : ReaderQuery) (probeOk : Bool)
    (arrival : List (Nat × Bool))
    (h : lstripSlashes q.urlParam = "" ∨ q.totalPage = 0) :
    download_and_build_pdf_run q probeOk arrival =
      ⟨[], false, none, some .malformed⟩ := by
  have hp : _parse q = .error "Reader URL missing Url or TotalPage" := by
    unfold _parse
    simp only [if_pos h]
  unfold download_and_build_pdf_run
  rw [hp]

/-- Witness for the amended C7 at `TotalPage = 0`. -/
theorem c7_malformed_amended_witness :
    (lstripSlashes "books" = "" ∨ (0 : Int) = 0) ∧
      download_and_build_pdf_run ⟨0, "books", "jpg"⟩ true [] =
        ⟨[], false, none, some .malformed⟩ :=
  ⟨Or.inr rfl, c7_malformed_amended ⟨0, "books", "jpg"⟩ true [] (Or.inr rfl)⟩

theorem runArrivalsE_error_of_failure :
    ∀ (arrival : List (Nat × Bool)) (s : AsmState),
      (∃ pg, (pg, false) ∈ arrival) →
      ∃ k, runArrivalsE arrival s = .error k ∧ (k, false) ∈ arrival := by
  intro arrival
  induction arrival with
  | nil =>
    rintro s ⟨pg, hpg⟩
    simp at hpg
  | cons a rest ih =>
    rintro s ⟨pg, hpg⟩
    obtain ⟨p1, g1⟩ := a
    by_cases hg : g1 = true
    · subst hg
      have hr : ∃ pg, (pg, false) ∈ rest := by
        rcases List.mem_cons.mp hpg with he | hm
        · simp at he
        · exact ⟨pg, hm⟩
      obtain ⟨k, hk, hmem⟩ := ih (stepArrival s p1) hr
      refine ⟨k, ?_, List.mem_cons_of_mem _ hmem⟩
      simpa [runArrivalsE] using hk
    · have hg' : g1 = false := by simpa using hg
      subst hg'
      exact ⟨p1, by simp [runArrivalsE], by simp⟩

/-- C4: whenever the probe fetch fails or any pool unit fails
permanently, the job surfaces a fetch-failure error carrying a failing
unit, `pdf.output` (finalize) is never reached, and no artifact — not
even a partial one — is returned, regardless of how many other units
succeeded. -/
theorem c4_fail_fast_atomicity (q : ReaderQuery) (pr : Int × String × String)
    (hq : _parse q = .ok pr) (probeOk : Bool) (arrival : List (Nat × Bool))
    (hfail : probeOk = false ∨ ∃ pg, (pg, false) ∈ arrival) :
    (download_and_build_pdf_run q probeOk arrival).finalized = false ∧
      (download_and_build_pdf_run q probeOk arrival).artifact = none ∧
      ∃ k, (download_and_build_pdf_run q probeOk arrival).error =
          some (.fetchFailed k) ∧
        ((k = 1 ∧ probeOk = false) ∨ (k, false) ∈ arrival) := by
  by_cases hpb : probeOk = true
  · rcases hfail with hf | hex
    · rw [hpb] at hf
      cases hf
    · obtain ⟨k, hk, hmem⟩ := runArrivalsE_error_of_failure arrival initState hex
      have hrun : download_and_build_pdf_run q probeOk arrival =
          ⟨1 :: arrival.map Prod.fst, false, none, some (.fetchFailed k)⟩ := by
        unfold download_and_build_pdf_run
        rw [hq, hpb]
        simp [hk]
      rw [hrun]
      exact ⟨rfl, rfl, k, rfl, Or.inr hmem⟩
  · have hpf : probeOk = false := by simpa using hpb
    have hrun : download_and_build_pdf_run q probeOk arrival =
        ⟨[1], false, none, some (.fetchFailed 1)⟩ := by
      unfold download_and_build_pdf_run
      rw [hq, hpf]
      simp
    rw [hrun]
    exact ⟨rfl, rfl, 1, rfl, Or.inl ⟨rfl, hpf⟩⟩

/-- Witness for C4 at N = 3 with unit 2 failing after unit 3 succeeded. -/
theorem c4_fail_fast_atomicity_witness :
    _parse ⟨3, "b", "jpg"⟩ = .ok (3, "jpg", "b/") ∧
      (true = false ∨ ∃ pg, (pg, false) ∈ [(3, true), (2, false)]) ∧
      ((download_and_build_pdf_run ⟨3, "b", "jpg"⟩ true
          [(3, true), (2, false)]).finalized = false ∧
        (download_and_build_pdf_run ⟨3, "b", "jpg"⟩ true
          [(3, true), (2, false)]).artifact = none ∧
        ∃ k, (download_and_build_pdf_run ⟨3, "b", "jpg"⟩ true
            [(3, true), (2, false)]).error = some (.fetchFailed k) ∧
          ((k = 1 ∧ true = false) ∨ (k, false) ∈ [(3, true), (2, false)])) :=
  ⟨rfl, Or.inr ⟨2, by decide⟩,
    c4_fail_fast_atomicity ⟨3, "b", "jpg"⟩ (3, "jpg", "b/") rfl true
      [(3, true), (2, false)] (Or.inr ⟨2, by decide⟩)⟩

/-- C9: the probe fetch retrieves unit 1 before the pool is sized, its
payload is pre-inserted into the ready buffer, the pool is only ever
given units 2..N (`range(2, total + 1)`), and across the whole job
unit 1 is fetched exactly once. -/
theorem c9_probe_once (q : ReaderQuery) (pr : Int × String × String)
    (hq : _parse q = .ok pr) (arrival : List (Nat × Bool))
    (hperm : (arrival.map Prod.fst).Perm (poolPages q.totalPage)) (p : Nat) :
    1 ∉ poolPages q.totalPage ∧
      (p ∈ poolPages q.totalPage ↔ 2 ≤ p ∧ (p : Int) ≤ q.totalPage) ∧
      initState.ready = [1] ∧
      (download_and_build_pdf_run q true arrival).fetched =
        1 :: arrival.map Prod.fst ∧
      (download_and_build_pdf_run q true arrival).fetched.count 1 = 1 := by
  have hmem : ∀ x, x ∈ poolPages q.totalPage ↔ 2 ≤ x ∧ (x : Int) ≤ q.totalPage := by
    intro x
    simp only [poolPages, List.mem_range'_1]
    omega
  have h1 : 1 ∉ poolPages q.totalPage := by
    rw [hmem]
    intro h
    omega
  have hf : (download_and_build_pdf_run q true arrival).fetched =
      1 :: arrival.map Prod.fst := by
    unfold download_and_build_pdf_run
    rw [hq]
    cases hrun : runArrivalsE arrival initState <;> simp [hrun]
  refine ⟨h1, hmem p, rfl, hf, ?_⟩
  rw [hf, List.count_cons_self]
  have hz : (arrival.map Prod.fst).count 1 = 0 :=
    List.count_eq_zero_of_not_mem (fun hc => h1 (hperm.subset hc))
  omega

/-- Witness for C9 at N = 3 with pool completions 3 then 2. -/
theorem c9_probe_once_witness :
    _parse ⟨3, "b", "jpg"⟩ = .ok (3, "jpg", "b/") ∧
      ([(3, true), (2, true)].map Prod.fst).Perm (poolPages 3) ∧
      (1 ∉ poolPages 3 ∧
        (2 ∈ poolPages 3 ↔ 2 ≤ 2 ∧ (2 : Int) ≤ 3) ∧
        initState.ready = [1] ∧
        (download_and_build_pdf_run ⟨3, "b", "jpg"⟩ true
          [(3, true), (2, true)]).fetched = 1 :: [(3, true), (2, true)].map Prod.fst ∧
        (download_and_build_pdf_run ⟨3, "b", "jpg"⟩ true
          [(3, true), (2, true)]).fetched.count 1 = 1) :=
  ⟨rfl, by decide,
    c9_probe_once ⟨3, "b", "jpg"⟩ (3, "jpg", "b/") rfl
      [(3, true), (2, true)] (by decide) 2⟩

theorem retryRunAux_requests (resp : Nat → Nat) :
    ∀ (r i : Nat), 1 ≤ (retryRunAux resp i r).requests ∧
      (retryRunAux resp i r).requests ≤ r + 1 := by
  intro r
  induction r with
  | zero =>
    intro i
    unfold retryRunAux
    split_ifs <;> exact ⟨le_refl 1, le_refl 1⟩
  | succ n ih =>
    intro i
    unfold retryRunAux
    split_ifs
    · show 1 ≤ 1 ∧ 1 ≤ n + 1 + 1
      omega
    · show 1 ≤ (retryRunAux resp (i + 1) n).requests + 1 ∧
        (retryRunAux resp (i + 1) n).requests + 1 ≤ n + 1 + 1
      have := ih (i + 1)
      omega
    · show 1 ≤ 1 ∧ 1 ≤ n + 1 + 1
      omega

theorem retryRunAux_httpError (resp : Nat → Nat) :
    ∀ (r i s : Nat), (retryRunAux resp i r).outcome = .httpError s →
      s ∉ statusForcelist ∧ 400 ≤ s := by
  intro r
  induction r with
  | zero =>
    intro i s h
    unfold retryRunAux at h
    split_ifs at h with h1 h2
    have h3 := FetchOutcome.httpError.inj h
    subst h3
    exact ⟨h2, by omega⟩
  | succ n ih =>
    intro i s h
    unfold retryRunAux at h
    split_ifs at h with h1 h2
    · exact ih (i + 1) s h
    · have h3 := FetchOutcome.httpError.inj h
      subst h3
      exact ⟨h2, by omega⟩

theorem retryRunAux_exhausted (resp : Nat → Nat) :
    ∀ (r i s : Nat), (retryRunAux resp i r).outcome = .exhausted s →
      (retryRunAux resp i r).requests = r + 1 ∧ s ∈ statusForcelist := by
  intro r
  induction r with
  | zero =>
    intro i s h
    unfold retryRunAux at h ⊢
    split_ifs at h ⊢ with h1 h2
    have h3 := FetchOutcome.exhausted.inj h
    subst h3
    exact ⟨rfl, h2⟩
  | succ n ih =>
    intro i s h
    unfold retryRunAux at h ⊢
    split_ifs at h ⊢ with h1 h2
    have hrec := ih (i + 1) s h
    refine ⟨?_, hrec.2⟩
    show (retryRunAux resp (i + 1) n).requests + 1 = n + 1 + 1
    omega

theorem retryRunAux_backoffs (resp : Nat → Nat) :
    ∀ (r i : Nat), (retryRunAux resp i r).backoffs =
      (List.range' i ((retryRunAux resp i r).requests - 1)).map retryBackoff := by
  intro r
  induction r with
  | zero =>
    intro i
    unfold retryRunAux
    split_ifs <;> simp
  | succ n ih =>
    intro i
    unfold retryRunAux
    split_ifs
    · simp
    · show retryBackoff i :: (retryRunAux resp (i + 1) n).backoffs =
        (List.range' i ((retryRunAux resp (i + 1) n).requests + 1 - 1)).map
          retryBackoff
      obtain ⟨hpos, _⟩ := retryRunAux_requests resp n (i + 1)
      obtain ⟨m, hm⟩ := Nat.exists_eq_add_of_le hpos
      rw [ih (i + 1), hm]
      have hm1 : 1 + m + 1 - 1 = m + 1 := by omega
      have hm2 : 1 + m - 1 = m := by omega
      rw [hm1, hm2, List.range'_succ, List.map_cons]
    · simp

/-- C8 counterexample: status 501 is in the claimed transient class
(server-side 5xx) but is not in the configured forcelist
`[429, 500, 502, 503, 504]`, so the fetch raises immediately after a
single request, with no retry — a transient-class error propagates
although retries were not exhausted. -/
theorem c8_counterexample :
    specTransient 501 ∧
      501 ∉ statusForcelist ∧
      fetchWithRetry (fun i => if i = 0 then 501 else 200) =
        ⟨.httpError 501, 1, []⟩ := by
  refine ⟨by simp [specTransient], by decide, rfl⟩

/-- C8 amended: each fetch retries only statuses in the configured
forcelist 429, 500, 502, 503, 504 (all within the transient class, but
not every 5xx status), with at most 3 retries (4 requests) and
exponential doubling backoff between attempts; a first-request status
that is non-success and outside the forcelist raises immediately after
exactly one request; an error propagates as `httpError` only for
statuses outside the forcelist, and as retry exhaustion only after all
4 requests saw forcelist statuses. -/
theorem c8_retry_policy_amended (resp : Nat → Nat) (s t : Nat)
    (ht : t ∈ statusForcelist) :
    specTransient t ∧
      1 ≤ (fetchWithRetry resp).requests ∧
      (fetchWithRetry resp).requests ≤ 4 ∧
      ((fetchWithRetry resp).outcome = .httpError s →
        s ∉ statusForcelist ∧ 400 ≤ s) ∧
      ((fetchWithRetry resp).outcome = .exhausted s →
        (fetchWithRetry resp).requests = 4 ∧ s ∈ statusForcelist) ∧
      (400 ≤ resp 0 → resp 0 ∉ statusForcelist →
        fetchWithRetry resp = ⟨.httpError (resp 0), 1, []⟩) ∧
      (fetchWithRetry resp).backoffs =
        (List.range ((fetchWithRetry resp).requests - 1)).map (fun k => 2 ^ k) := by
  have hreq := retryRunAux_requests resp 3 0
  refine ⟨?_, hreq.1, hreq.2, retryRunAux_httpError resp 3 0 s,
    retryRunAux_exhausted resp 3 0 s, ?_, ?_⟩
  · fin_cases ht <;> simp [specTransient]
  · intro h400 hnf
    show retryRunAux resp 0 3 = _
    unfold retryRunAux
    rw [if_neg (by omega), if_neg hnf]
  · show (retryRunAux resp 0 3).backoffs =
      (List.range ((retryRunAux resp 0 3).requests - 1)).map (fun k => 2 ^ k)
    rw [retryRunAux_backoffs resp 3 0, List.range_eq_range']
    simp [retryBackoff]

/-- Witness for the amended C8 on an all-successful response stream at
forcelist status 429. -/
theorem c8_retry_policy_amended_witness :
    429 ∈ statusForcelist ∧
      (specTransient 429 ∧
        1 ≤ (fetchWithRetry (fun _ => 200)).requests ∧
        (fetchWithRetry (fun _ => 200)).requests ≤ 4 ∧
        ((fetchWithRetry (fun _ => 200)).outcome = .httpError 404 →
          404 ∉ statusForcelist ∧ 400 ≤ 404) ∧
        ((fetchWithRetry (fun _ => 200)).outcome = .exhausted 404 →
          (fetchWithRetry (fun _ => 200)).requests = 4 ∧
            404 ∈ statusForcelist) ∧
        (400 ≤ (fun _ : Nat => 200) 0 → (fun _ : Nat => 200) 0 ∉ statusForcelist →
          fetchWithRetry (fun _ => 200) = ⟨.httpError ((fun _ : Nat => 200) 0), 1, []⟩) ∧
        (fetchWithRetry (fun _ => 200)).backoffs =
          (List.range ((fetchWithRetry (fun _ => 200)).requests - 1)).map
            (fun k => 2 ^ k)) :=
  ⟨by decide, c8_retry_policy_amended (fun _ => 200) 404 429 (by decide)⟩

/-- C10: in `download_reader_images`, every page in 1..N gets exactly
one loop action; a page whose output file pre-exists is skipped without
fetching; a page whose response fails is only reported — the loop
continues, the function returns normally (the embedding is a total
function), and the failed page's file is simply absent afterwards;
successful pages leave their file present. -/
theorem c10_failed_page_skipped (total : Nat) (pre good : Nat → Bool)
    (p : Nat) :
    ((download_reader_images_run total pre good).map Prod.fst =
        List.range' 1 total) ∧
      (pre p = true → readerPageAction pre good p = .skipped ∧
        p ∉ readerFetched total pre) ∧
      (pre p = false → good p = false →
        readerPageAction pre good p = .failed ∧
          actionLeavesFile (readerPageAction pre good p) = false) ∧
      (pre p = false → good p = true →
        readerPageAction pre good p = .downloaded ∧
          actionLeavesFile (readerPageAction pre good p) = true) := by
  refine ⟨?_, ?_, ?_, ?_⟩
  · simp [download_reader_images_run, Function.comp_def]
  · intro hpre
    refine ⟨by simp [readerPageAction, hpre], ?_⟩
    simp [readerFetched, List.mem_filter, hpre]
  · intro hpre hgood
    simp [readerPageAction, hpre, hgood, actionLeavesFile]
  · intro hpre hgood
    simp [readerPageAction, hpre, hgood, actionLeavesFile]

/-- Witness for C10 at N = 4 where page 2 pre-exists and page 3 fails. -/
theorem c10_failed_page_skipped_witness :
    ((download_reader_images_run 4 (fun p => p == 2) (fun p => p != 3)).map
        Prod.fst = List.range' 1 4) ∧
      ((fun p : Nat => p == 2) 3 = true →
        readerPageAction (fun p => p == 2) (fun p => p != 3) 3 = .skipped ∧
          3 ∉ readerFetched 4 (fun p => p == 2)) ∧
      ((fun p : Nat => p == 2) 3 = false → (fun p : Nat => p != 3) 3 = false →
        readerPageAction (fun p => p == 2) (fun p => p != 3) 3 = .failed ∧
          actionLeavesFile
            (readerPageAction (fun p => p == 2) (fun p => p != 3) 3) = false) ∧
      ((fun p : Nat => p == 2) 3 = false → (fun p : Nat => p != 3) 3 = true →
        readerPageAction (fun p => p == 2) (fun p => p != 3) 3 = .downloaded ∧
          actionLeavesFile
            (readerPageAction (fun p => p == 2) (fun p => p != 3) 3) = true) :=
  c10_failed_page_skipped 4 (fun p => p == 2) (fun p => p != 3) 3

end BookExtract
